import Mathlib

/-!
Verification of the AutomaticWriter scheduler core.

This file gives a shallow embedding of the scheduling-and-execution logic of
the repository (the Supabase edge function `scheduler-executor/index.ts`, the
title/content split of `src/services/aiService.ts`, and the category
resolution of `src/services/supabaseSchedulerService.ts`) and proves the
frozen specification claims about it.

Modelling conventions:
* JavaScript strings are Lean `String`s; character-level operations work on
  `String.data` (a `List Char`) with structural recursion so that every
  definition evaluates inside the kernel.
* Database reads (execution history, category lookups), LLM calls, the
  WordPress POST and `Math.random()` are explicit inputs: history rows,
  lookup-result lists, `Except`-valued oracles and a rational `r ∈ [0, 1)`.
* Epoch times are rationals measured in milliseconds (JS `Date.getTime()`);
  the hours-since computation divides by `1000 * 60 * 60` exactly as the
  source does.
* Thrown JS exceptions are `Except.error` with the thrown message.
-/

namespace AutomaticWriter

/-- JS `str.split(sep)` for a one-character separator, on character lists.
`splitOnChar c l` never returns `[]` (splitting the empty string gives
`[[]]`, as `"".split` gives `[""]` in JS). -/
def splitOnChar (c : Char) : List Char → List (List Char)
  | [] => [[]]
  | x :: xs =>
    if x = c then [] :: splitOnChar c xs
    else
      match splitOnChar c xs with
      | [] => [[x]]
      | g :: gs => (x :: g) :: gs

/-- JS `Array.join(sep)` for a one-character separator: interleaves `c`
between the groups. Inverse of `splitOnChar`. -/
def joinOnChar (c : Char) : List (List Char) → List Char
  | [] => []
  | [l] => l
  | l :: l' :: ls => l ++ c :: joinOnChar c (l' :: ls)

/-- JS `Number(...)` on a string of decimal digits (the `HH` / `MM` pieces of
a schedule time). On the empty list it returns 0, as JS `Number("")` does.
Malformed (non-digit) input is outside the claims' scope: in JS it yields
`NaN`; here it yields an unspecified numeral. -/
def parseNatChars (cs : List Char) : Nat :=
  cs.foldl (fun acc c => acc * 10 + (c.toNat - '0'.toNat)) 0

/-- Lines 155-159 of `scheduler-executor/index.ts`:
`const [h, m] = t.split(':').map(Number); h * 60 + m`. -/
def timeToMinutes (t : String) : Nat :=
  match (splitOnChar ':' t.data).map parseNatChars with
  | h :: m :: _ => h * 60 + m
  | _ => 0

/-- Line 160: `Math.abs(currentMinutes - scheduleMinutes)`. -/
def minuteDiff (scheduleTime currentTime : String) : Nat :=
  ((timeToMinutes currentTime : Int) - (timeToMinutes scheduleTime : Int)).natAbs

/-- Lines 166-194 of `scheduler-executor/index.ts`: the frequency gate of
`shouldExecuteNow`. `lastExecution` is the `executed_at` epoch-milliseconds
of the most recent `execution_history` row for the schedule (`none` when the
history query returns no row), `nowMs` is `new Date().getTime()`. -/
def frequencyGate (frequency : String) (lastExecution : Option ℚ) (nowMs : ℚ) : Bool :=
  match lastExecution with
  | none => true
  | some lastMs =>
    let hoursSinceLastExecution : ℚ := (nowMs - lastMs) / (1000 * 60 * 60)
    if frequency = "daily" ∧ 23 ≤ hoursSinceLastExecution then true
    else if frequency = "weekly" ∧ 24 * 6.5 ≤ hoursSinceLastExecution then true
    else if frequency = "biweekly" ∧ 24 * 13 ≤ hoursSinceLastExecution then true
    else if frequency = "monthly" ∧ 24 * 29 ≤ hoursSinceLastExecution then true
    else false

/-- Lines 147-195 of `scheduler-executor/index.ts`: `shouldExecuteNow`.
The ±5-minute window check on raw minutes-of-day, then the frequency gate
against the most recent execution. -/
def shouldExecuteNow (scheduleTime currentTime frequency : String)
    (lastExecution : Option ℚ) (nowMs : ℚ) : Bool :=
  if minuteDiff scheduleTime currentTime > 5 then false
  else frequencyGate frequency lastExecution nowMs

/-- Lines 252-274 of `scheduler-executor/index.ts`: `selectUnusedKeyword`.
`usedKeywords` is the list of `keyword_used` values from the schedule's
execution history; `r` models `Math.random() ∈ [0, 1)`.  JS indexing
`arr[Math.floor(r * arr.length)]` becomes `List.get?` of the floor, so an
out-of-range access (empty pool) is `none`, as `undefined` is falsy in JS. -/
def selectUnusedKeyword (allKeywords usedKeywords : List String) (r : ℚ) : Option String :=
  let availableKeywords := allKeywords.filter (fun k => !usedKeywords.contains k)
  if availableKeywords.length = 0 then
    allKeywords.get? (⌊r * (allKeywords.length : ℚ)⌋).toNat
  else
    availableKeywords.get? (⌊r * (availableKeywords.length : ℚ)⌋).toNat

/-- The joined `wordpress_configs` row fields used by the executor. -/
structure WordPressConfig where
  id : String
  name : String
deriving DecidableEq

/-- A `schedule_settings` row (lines 19-27 of `scheduler-executor/index.ts`). -/
structure ScheduleSetting where
  id : String
  wordpress_config_id : String
  is_active : Bool
  frequency : String
  time : String
  target_keywords : List String
  publish_status : String
deriving DecidableEq

/-- The effectful inputs of one schedule's pipeline: the `keyword_used`
column of its history rows, the `Math.random()` draw, and the three network
calls (`generateTrendTitle`, `generateArticle`, `publishToWordPress`), each
either a thrown message or its returned value. -/
structure PipelineOracles where
  usedKeywords : List String
  rand : ℚ
  genTitle : Except String String
  genArticle : Except String String
  publish : Except String Nat

/-- The per-schedule success record built at lines 241-248 of
`scheduler-executor/index.ts` (the WordPress post id kept as a numeral). -/
structure ExecResult where
  wordpress_config_id : String
  wordpress_config_name : String
  success : Bool
  keyword : String
  title : String
  post_id : Nat
deriving DecidableEq

/-- The `execution_history` row inserted at lines 231-239 of
`scheduler-executor/index.ts`. -/
structure HistoryRow where
  schedule_id : String
  wordpress_config_id : String
  keyword_used : String
  article_title : String
  wordpress_post_id : Nat
  status : String
deriving DecidableEq

/-- Lines 198-249 of `scheduler-executor/index.ts`: `executeSchedule`.
Returns the success record together with the single history row it inserts,
or the thrown message.  `if (!keyword) throw` treats both `undefined`
(modelled `none`) and the empty string as missing. -/
def executeSchedule (schedule : ScheduleSetting) (wpConfig : WordPressConfig)
    (o : PipelineOracles) : Except String (ExecResult × HistoryRow) :=
  match selectUnusedKeyword schedule.target_keywords o.usedKeywords o.rand with
  | none => Except.error "使用可能なキーワードがありません"
  | some keyword =>
    if keyword = "" then Except.error "使用可能なキーワードがありません"
    else
      match o.genTitle with
      | Except.error e => Except.error e
      | Except.ok trendTitle =>
        match o.genArticle with
        | Except.error e => Except.error e
        | Except.ok _articleContent =>
          match o.publish with
          | Except.error e => Except.error e
          | Except.ok postId =>
            Except.ok
              (⟨wpConfig.id, wpConfig.name, true, keyword, trendTitle, postId⟩,
               ⟨schedule.id, wpConfig.id, keyword, trendTitle, postId, "success"⟩)

/-- One element of the handler's `results` array: either the record returned
by `executeSchedule` or the catch-block record
`{wordpress_config_id, success: false, error}` (lines 111-121). -/
inductive ScheduleResult where
  | ok (r : ExecResult)
  | err (wordpress_config_id : String) (error : String)
deriving DecidableEq

/-- The `success` field of a `results` entry. -/
def ScheduleResult.success : ScheduleResult → Bool
  | .ok r => r.success
  | .err _ _ => false

/-- The `error` field of a `results` entry (absent on the success records). -/
def ScheduleResult.errorMessage : ScheduleResult → Option String
  | .ok _ => none
  | .err _ e => some e

/-- Line 106 of `scheduler-executor/index.ts`:
`forceExecute || await shouldExecuteNow(...)`. -/
def scheduleDue (forceExecute : Bool) (scheduleTime currentTime frequency : String)
    (lastExecution : Option ℚ) (nowMs : ℚ) : Bool :=
  forceExecute || shouldExecuteNow scheduleTime currentTime frequency lastExecution nowMs

/-- The database/network environment of one schedule inside the handler
loop: its joined WordPress config, the `executed_at` of its most recent
history row, and its pipeline oracles. -/
structure ScheduleEnv where
  wpConfig : WordPressConfig
  lastExecution : Option ℚ
  oracles : PipelineOracles

/-- Lines 94-125 of `scheduler-executor/index.ts`: the handler's loop over
the active schedules.  Returns the `results` array together with the list of
history rows inserted during the invocation. -/
def processSchedules (forceExecute : Bool) (currentTime : String) (nowMs : ℚ)
    (env : ScheduleSetting → ScheduleEnv) :
    List ScheduleSetting → List ScheduleResult × List HistoryRow
  | [] => ([], [])
  | s :: rest =>
    let e := env s
    let prev := processSchedules forceExecute currentTime nowMs env rest
    if scheduleDue forceExecute s.time currentTime s.frequency e.lastExecution nowMs then
      match executeSchedule s e.wpConfig e.oracles with
      | Except.ok (r, row) => (ScheduleResult.ok r :: prev.1, row :: prev.2)
      | Except.error msg => (ScheduleResult.err e.wpConfig.id msg :: prev.1, prev.2)
    else prev

/-- The handler's JSON body at lines 127-135: always `success: true` with
`executed = results.length`. -/
structure InvocationResponse where
  success : Bool
  executed : Nat
  results : List ScheduleResult

/-- Lines 94-135 of `scheduler-executor/index.ts`: loop plus final
response (the precondition failures before the loop — missing AI config,
no active schedule — are outside the per-schedule claims). -/
def handlerResponse (forceExecute : Bool) (currentTime : String) (nowMs : ℚ)
    (env : ScheduleSetting → ScheduleEnv) (schedules : List ScheduleSetting) :
    InvocationResponse :=
  let results := (processSchedules forceExecute currentTime nowMs env schedules).1
  ⟨true, results.length, results⟩

/-! ### Title/content split (`src/services/aiService.ts`) -/

/-- JS `title.replace(/^#+\s*/, "")` (lines 167, 195, 227 of
`src/services/aiService.ts`): when the line starts with at least one `#`,
drop the run of `#` and the following whitespace run; otherwise unchanged. -/
def stripHeadingChars (cs : List Char) : List Char :=
  if cs.head? = some '#' then (cs.dropWhile (· = '#')).dropWhile Char.isWhitespace
  else cs

/-- JS `String.trim()`: drop whitespace from both ends. -/
def trimChars (cs : List Char) : List Char :=
  ((cs.dropWhile Char.isWhitespace).reverse.dropWhile Char.isWhitespace).reverse

/-- Lines 164-172 (`callGemini`), 193-200 (`callClaude`), 224-231
(`callOpenAI`) of `src/services/aiService.ts`:
`const [title, ...body] = text.split("\n");
 {title: title.replace(/^#+\s*/, "").trim(), content: body.join("\n").trim()}`. -/
def splitTitleContent (text : String) : String × String :=
  match splitOnChar '\n' text.data with
  | [] => ("", "")
  | title :: body =>
    (String.mk (trimChars (stripHeadingChars title)),
     String.mk (trimChars (joinOnChar '\n' body)))

/-! ### Category resolution (`src/services/supabaseSchedulerService.ts`) -/

/-- A category row of the WordPress `GET /wp-json/wp/v2/categories` responses. -/
structure WPCategory where
  id : Nat
  name : String
deriving DecidableEq

/-- The two category queries of `findExistingCategoryBySlugOrName`
(lines 590-608): the response list when filtering by `slug=identifier`
and when filtering by `search=identifier`. -/
structure CategoryLookup where
  slugResults : String → List WPCategory
  searchResults : String → List WPCategory

/-- Lines 590-624 of `src/services/supabaseSchedulerService.ts`:
`findExistingCategoryBySlugOrName`. First match by slug; else search and
prefer an exact case-insensitive name match, else the first result; else
`null` — never creating a category. -/
def findExistingCategoryBySlugOrName (slugResults searchResults : List WPCategory)
    (categoryIdentifier : String) : Option Nat :=
  match slugResults with
  | first :: _ => some first.id
  | [] =>
    match searchResults with
    | [] => none
    | first :: rest =>
      match (first :: rest).find?
          (fun cat => cat.name.toLower = categoryIdentifier.toLower) with
      | some exactMatch => some exactMatch.id
      | none => some first.id

/-- Resolution of one identifier against a lookup environment. -/
def resolveCategory (lk : CategoryLookup) (identifier : String) : Option Nat :=
  findExistingCategoryBySlugOrName (lk.slugResults identifier) (lk.searchResults identifier)
    identifier

/-- Lines 542-586 of `src/services/supabaseSchedulerService.ts`:
`getExistingCategoryIds`. Tries the config's default category (JS truthiness:
the empty string is skipped), then the article category when distinct, then
the literal `"uncategorized"` fallback when nothing resolved; an empty result
lets WordPress apply its own default. -/
def getExistingCategoryIds (lk : CategoryLookup)
    (defaultCategory articleCategory : String) : List Nat :=
  let ids1 : List Nat :=
    if defaultCategory ≠ "" then
      match resolveCategory lk defaultCategory with
      | some i => [i]
      | none => []
    else []
  let ids2 : List Nat :=
    if articleCategory ≠ "" ∧ articleCategory ≠ defaultCategory then
      match resolveCategory lk articleCategory with
      | some i => if i ∈ ids1 then ids1 else ids1 ++ [i]
      | none => ids1
    else ids1
  if ids2 = [] then
    match resolveCategory lk "uncategorized" with
    | some i => [i]
    | none => []
  else ids2

/-- The record returned by `publishArticle` (lines 307-358): the method
returns a record in every branch (its body is one `try/catch`), never
throwing to its caller. -/
structure PublishOutcome where
  success : Bool
  wordPressId : Option Nat
  error : Option String
deriving DecidableEq

/-- Lines 307-358 of `src/services/supabaseSchedulerService.ts`:
`publishArticle` — resolve category ids, POST the article (modelled by the
`post` oracle taking the resolved ids; `Except.ok` is the HTTP 201 case),
and wrap the outcome. -/
def publishArticle (lk : CategoryLookup) (defaultCategory articleCategory : String)
    (post : List Nat → Except String Nat) : PublishOutcome :=
  let categoryIds := getExistingCategoryIds lk defaultCategory articleCategory
  match post categoryIds with
  | Except.ok wpId => ⟨true, some wpId, none⟩
  | Except.error e => ⟨false, none, some e⟩

/-! ### Claim theorems -/

/-- C1: for every schedule and current time, `shouldExecuteNow` returns
false whenever the absolute minute-of-day difference exceeds 5, uniformly in
the execution history (`lastExecution`) and the clock (`nowMs`) — the
history is never consulted; at a difference of exactly 5 the window check
passes and the result is exactly the frequency gate's verdict on the
history. -/
theorem shouldExecuteNow_window (st ct f : String) (last : Option ℚ) (now : ℚ) :
    (minuteDiff st ct > 5 → shouldExecuteNow st ct f last now = false)
    ∧ (minuteDiff st ct = 5 →
        shouldExecuteNow st ct f last now = frequencyGate f last now) := by
  constructor
  · intro h
    simp [shouldExecuteNow, h]
  · intro h
    simp [shouldExecuteNow, h]

/-- Witness for C1 at `schedule.time = "09:00"`: `"09:06"` (6 minutes away,
history present) is rejected; `"09:05"` (exactly 5 minutes) reaches the
frequency gate. -/
theorem shouldExecuteNow_window_witness :
    shouldExecuteNow "09:00" "09:06" "daily" (some 0) 0 = false
    ∧ shouldExecuteNow "09:00" "09:05" "daily" none 0
        = frequencyGate "daily" none 0 :=
  ⟨(shouldExecuteNow_window "09:00" "09:06" "daily" (some 0) 0).1 (by decide),
   (shouldExecuteNow_window "09:00" "09:05" "daily" none 0).2 (by decide)⟩

/-- C9: the window is computed on raw minutes-of-day with no wrap-around at
midnight: schedule time `"00:02"` with current time `"23:59"` (three real
minutes apart across midnight) yields the same-day gap of 1437 minutes, and
the schedule is judged not due for every frequency, history and clock. -/
theorem no_midnight_wraparound :
    minuteDiff "00:02" "23:59" = 1437
    ∧ ∀ (frequency : String) (last : Option ℚ) (now : ℚ),
        shouldExecuteNow "00:02" "23:59" frequency last now = false := by
  refine ⟨by decide, fun f last now => ?_⟩
  have h : minuteDiff "00:02" "23:59" > 5 := by decide
  simp [shouldExecuteNow, h]

/-- C2: within the ±5-minute window, a schedule with no prior execution
history is due, and one with a most recent execution at `l` is due exactly
when the hours elapsed reach the frequency's threshold: 23 for daily,
156 = 24·6.5 for weekly, 312 = 24·13 for biweekly, 696 = 24·29 for
monthly (and never for an unknown frequency string). -/
theorem frequency_gate_thresholds (st ct f : String) (l now : ℚ)
    (hwin : minuteDiff st ct ≤ 5) :
    shouldExecuteNow st ct f none now = true
    ∧ (shouldExecuteNow st ct f (some l) now = true ↔
        (f = "daily" ∧ 23 ≤ (now - l) / (1000 * 60 * 60))
        ∨ (f = "weekly" ∧ 156 ≤ (now - l) / (1000 * 60 * 60))
        ∨ (f = "biweekly" ∧ 312 ≤ (now - l) / (1000 * 60 * 60))
        ∨ (f = "monthly" ∧ 696 ≤ (now - l) / (1000 * 60 * 60))) := by
  have hn : ¬ (minuteDiff st ct > 5) := by omega
  have e1 : (24 * 6.5 : ℚ) = 156 := by norm_num
  have e2 : (24 * 13 : ℚ) = 312 := by norm_num
  have e3 : (24 * 29 : ℚ) = 696 := by norm_num
  constructor
  · simp [shouldExecuteNow, hn, frequencyGate]
  · rw [shouldExecuteNow, if_neg hn]
    simp only [frequencyGate, e1, e2, e3]
    split_ifs with h1 h2 h3 h4 <;> simp_all

/-- Witness for C2 (the spec's frequency-gating test): within the window,
`frequency = "daily"` with the last execution 24 hours (86400000 ms) ago is
due; no history is due. -/
theorem frequency_gate_thresholds_witness :
    shouldExecuteNow "09:00" "09:02" "daily" none 0 = true
    ∧ shouldExecuteNow "09:00" "09:02" "daily" (some 0) 86400000 = true := by
  have h1 := frequency_gate_thresholds "09:00" "09:02" "daily" 0 0 (by decide)
  have h2 := frequency_gate_thresholds "09:00" "09:02" "daily" 0 86400000 (by decide)
  exact ⟨h1.1, h2.2.mpr (Or.inl ⟨rfl, by norm_num⟩)⟩

/-- JS `arr[Math.floor(r * arr.length)]` hits index `i` exactly on the
interval `i ≤ r·n < i + 1` (the `n` equal-length sub-intervals of `[0, n)`,
i.e. a uniform draw when `r` is uniform on `[0, 1)`). -/
lemma get?_floor_mul {α : Type} (l : List α) (r : ℚ) (i : ℕ) (hi : i < l.length)
    (hlo : (i : ℚ) ≤ r * (l.length : ℚ)) (hhi : r * (l.length : ℚ) < i + 1) :
    l.get? (⌊r * (l.length : ℚ)⌋).toNat = some (l.get ⟨i, hi⟩) := by
  have hf : ⌊r * (l.length : ℚ)⌋ = (i : ℤ) := by
    rw [Int.floor_eq_iff]
    constructor
    · exact_mod_cast hlo
    · exact_mod_cast hhi
  rw [hf, Int.toNat_natCast, List.get?_eq_get hi]

/-- C3: `selectUnusedKeyword` chooses uniformly among the unused keywords
(`availableKeywords`, the pool filtered by the history-derived used set):
each unused keyword of index `i` is selected exactly when the random draw
falls in the `i`-th of the equal sub-intervals.  When every pool keyword has
been used (`availableKeywords = []`) the draw is over the full pool instead
of failing; the function is pure, so no reset event is persisted. -/
theorem keyword_rotation_uniform (pool used : List String) (r : ℚ) (i : ℕ) :
    (∀ hi : i < (pool.filter (fun k => !used.contains k)).length,
      (i : ℚ) ≤ r * ((pool.filter (fun k => !used.contains k)).length : ℚ) →
      r * ((pool.filter (fun k => !used.contains k)).length : ℚ) < i + 1 →
      selectUnusedKeyword pool used r
        = some ((pool.filter (fun k => !used.contains k)).get ⟨i, hi⟩))
    ∧ (pool.filter (fun k => !used.contains k) = [] →
      ∀ hi : i < pool.length,
        (i : ℚ) ≤ r * (pool.length : ℚ) → r * (pool.length : ℚ) < i + 1 →
        selectUnusedKeyword pool used r = some (pool.get ⟨i, hi⟩)) := by
  constructor
  · intro hi hlo hhi
    have hne : ¬ ((pool.filter (fun k => !used.contains k)).length = 0) := by omega
    unfold selectUnusedKeyword
    rw [if_neg hne]
    exact get?_floor_mul _ r i hi hlo hhi
  · intro hav hi hlo hhi
    unfold selectUnusedKeyword
    rw [hav]
    simp only [List.length_nil, if_pos rfl]
    exact get?_floor_mul _ r i hi hlo hhi

/-- Witness for C3: pool `["A", "B"]` with `"A"` already used — at
`r = 0` the single unused keyword `"B"` is selected; with both used
(exhausted pool) and `r = 1/2`, the draw falls on the full pool and returns
`"B"` (index 1 of 2) rather than failing. -/
theorem keyword_rotation_uniform_witness :
    selectUnusedKeyword ["A", "B"] ["A"] 0 = some "B"
    ∧ selectUnusedKeyword ["A", "B"] ["A", "B"] (1/2) = some "B" := by
  constructor
  · have h := (keyword_rotation_uniform ["A", "B"] ["A"] 0 0).1
      (by decide) (by norm_num) (by norm_num)
    simpa using h
  · have h := (keyword_rotation_uniform ["A", "B"] ["A", "B"] (1/2) 1).2
      (by decide) (by decide) (by norm_num) (by norm_num)
    simpa using h

/-- C6: with an empty keyword pool, `selectUnusedKeyword` returns nothing
(for every history and random draw), and `executeSchedule` for a schedule
with an empty `target_keywords` fails with the no-keywords error before any
generation or publish oracle is consulted. -/
theorem empty_pool_fails (s : ScheduleSetting) (wp : WordPressConfig)
    (o : PipelineOracles) (used : List String) (r : ℚ)
    (h : s.target_keywords = []) :
    selectUnusedKeyword [] used r = none
    ∧ executeSchedule s wp o = Except.error "使用可能なキーワードがありません" := by
  have key : ∀ (u : List String) (q : ℚ), selectUnusedKeyword [] u q = none := by
    intro u q
    simp [selectUnusedKeyword]
  refine ⟨key used r, ?_⟩
  unfold executeSchedule
  rw [h, key]

/-- Witness for C6 at a concrete schedule with an empty pool and all network
oracles succeeding: the attempt still errors. -/
theorem empty_pool_fails_witness :
    selectUnusedKeyword [] ["X"] 0 = none
    ∧ executeSchedule ⟨"s1", "w1", true, "daily", "09:00", [], "publish"⟩
        ⟨"w1", "Site"⟩ ⟨[], 0, Except.ok "T", Except.ok "A", Except.ok 7⟩
        = Except.error "使用可能なキーワードがありません" :=
  empty_pool_fails ⟨"s1", "w1", true, "daily", "09:00", [], "publish"⟩
    ⟨"w1", "Site"⟩ ⟨[], 0, Except.ok "T", Except.ok "A", Except.ok 7⟩
    ["X"] 0 rfl

/-- A successful `executeSchedule` run reached the end of the pipeline: the
publish oracle succeeded, the inserted history row has status `"success"`,
and the returned record has `success = true`. -/
lemma executeSchedule_ok (s : ScheduleSetting) (wp : WordPressConfig)
    (o : PipelineOracles) (r : ExecResult) (row : HistoryRow)
    (h : executeSchedule s wp o = Except.ok (r, row)) :
    row.status = "success" ∧ r.success = true ∧ ∃ n, o.publish = Except.ok n := by
  unfold executeSchedule at h
  cases hk : selectUnusedKeyword s.target_keywords o.usedKeywords o.rand with
  | none => simp [hk] at h
  | some k =>
    simp only [hk] at h
    by_cases hk0 : k = ""
    · simp [if_pos hk0] at h
    · simp only [if_neg hk0] at h
      cases hT : o.genTitle with
      | error e => simp [hT] at h
      | ok t =>
        simp only [hT] at h
        cases hA : o.genArticle with
        | error e => simp [hA] at h
        | ok a =>
          simp only [hA] at h
          cases hP : o.publish with
          | error e => simp [hP] at h
          | ok n =>
            simp only [hP, Except.ok.injEq, Prod.mk.injEq] at h
            obtain ⟨hr, hrow⟩ := h
            subst hr
            subst hrow
            exact ⟨rfl, rfl, n, rfl⟩

/-- C4: `forceExecute` makes every schedule due — line 106's
`forceExecute || shouldExecuteNow(...)` is true for every schedule time,
current time, frequency, execution history and clock — and the handler loop
then executes every schedule unconditionally, producing one result entry per
schedule. -/
theorem force_execute_bypasses_checks :
    (∀ (st ct f : String) (last : Option ℚ) (now : ℚ),
      scheduleDue true st ct f last now = true)
    ∧ ∀ (ct : String) (now : ℚ) (env : ScheduleSetting → ScheduleEnv)
        (schedules : List ScheduleSetting),
        ((processSchedules true ct now env schedules).1).length
          = schedules.length := by
  refine ⟨fun st ct f last now => rfl, fun ct now env schedules => ?_⟩
  induction schedules with
  | nil => rfl
  | cons s rest ih =>
    simp only [processSchedules, scheduleDue, Bool.true_or, if_true]
    cases hx : executeSchedule s (env s).wpConfig (env s).oracles with
    | ok v => obtain ⟨r, row⟩ := v; simp [List.length_cons, ih]
    | error e => simp [List.length_cons, ih]

/-- C5: when a due schedule's pipeline throws, the loop catches the error at
that schedule's boundary and pushes the per-schedule record
`{wordpress_config_id, success: false, error}`, the remaining schedules are
processed exactly as they would be on their own, and the invocation still
returns a `success: true` response. -/
theorem schedule_failure_isolated (force : Bool) (ct : String) (now : ℚ)
    (env : ScheduleSetting → ScheduleEnv) (s : ScheduleSetting)
    (rest : List ScheduleSetting) (e : String)
    (hdue : scheduleDue force s.time ct s.frequency (env s).lastExecution now = true)
    (hfail : executeSchedule s (env s).wpConfig (env s).oracles = Except.error e) :
    processSchedules force ct now env (s :: rest)
      = (ScheduleResult.err (env s).wpConfig.id e
          :: (processSchedules force ct now env rest).1,
         (processSchedules force ct now env rest).2)
    ∧ ((ScheduleResult.err (env s).wpConfig.id e).success = false
        ∧ (ScheduleResult.err (env s).wpConfig.id e).errorMessage = some e)
    ∧ (handlerResponse force ct now env (s :: rest)).success = true := by
  refine ⟨?_, ⟨rfl, rfl⟩, rfl⟩
  simp only [processSchedules, hdue, if_true, hfail]

/-- Witness for C5: one schedule with an empty keyword pool (its pipeline
throws) followed by one healthy schedule; the failure is recorded and the
healthy schedule still runs. -/
theorem schedule_failure_isolated_witness :
    processSchedules true "09:00" 0
        (fun s => ⟨⟨s.wordpress_config_id, "Site"⟩, none,
          ⟨[], 0, Except.ok "T", Except.ok "A", Except.ok 7⟩⟩)
        (⟨"s1", "w1", true, "daily", "09:00", [], "publish"⟩
          :: [⟨"s2", "w2", true, "daily", "09:00", ["K"], "publish"⟩])
      = (ScheduleResult.err "w1" "使用可能なキーワードがありません"
          :: (processSchedules true "09:00" 0
            (fun s => ⟨⟨s.wordpress_config_id, "Site"⟩, none,
              ⟨[], 0, Except.ok "T", Except.ok "A", Except.ok 7⟩⟩)
            [⟨"s2", "w2", true, "daily", "09:00", ["K"], "publish"⟩]).1,
         (processSchedules true "09:00" 0
            (fun s => ⟨⟨s.wordpress_config_id, "Site"⟩, none,
              ⟨[], 0, Except.ok "T", Except.ok "A", Except.ok 7⟩⟩)
            [⟨"s2", "w2", true, "daily", "09:00", ["K"], "publish"⟩]).2) := by
  have h := schedule_failure_isolated true "09:00" 0
    (fun s => ⟨⟨s.wordpress_config_id, "Site"⟩, none,
      ⟨[], 0, Except.ok "T", Except.ok "A", Except.ok 7⟩⟩)
    ⟨"s1", "w1", true, "daily", "09:00", [], "publish"⟩
    [⟨"s2", "w2", true, "daily", "09:00", ["K"], "publish"⟩]
    "使用可能なキーワードがありません" rfl
    (by simp [executeSchedule, selectUnusedKeyword])
  exact h.1

/-- C10: every history row the invocation appends has status `"success"`
(so the history table never gains an error row), and a row is produced only
by a schedule whose entire pipeline — including the publish — succeeded; a
failed schedule appends nothing, as the error branch of the loop leaves the
row list untouched. -/
theorem history_rows_only_success :
    (∀ (force : Bool) (ct : String) (now : ℚ)
        (env : ScheduleSetting → ScheduleEnv) (schedules : List ScheduleSetting)
        (row : HistoryRow),
        row ∈ (processSchedules force ct now env schedules).2 →
        row.status = "success")
    ∧ ∀ (s : ScheduleSetting) (wp : WordPressConfig) (o : PipelineOracles)
        (r : ExecResult) (row : HistoryRow),
        executeSchedule s wp o = Except.ok (r, row) →
        row.status = "success" ∧ ∃ n, o.publish = Except.ok n := by
  constructor
  · intro force ct now env schedules row hmem
    induction schedules with
    | nil => simp [processSchedules] at hmem
    | cons s rest ih =>
      simp only [processSchedules] at hmem
      by_cases hd : scheduleDue force s.time ct s.frequency (env s).lastExecution now
      · rw [if_pos hd] at hmem
        cases hx : executeSchedule s (env s).wpConfig (env s).oracles with
        | ok v =>
          obtain ⟨r, row'⟩ := v
          rw [hx] at hmem
          rcases List.mem_cons.mp hmem with hrow | hrest
          · subst hrow
            exact (executeSchedule_ok s (env s).wpConfig (env s).oracles r row hx).1
          · exact ih hrest
        | error e => rw [hx] at hmem; exact ih hmem
      · rw [if_neg hd] at hmem; exact ih hmem
  · intro s wp o r row h
    obtain ⟨h1, _, h3⟩ := executeSchedule_ok s wp o r row h
    exact ⟨h1, h3⟩

/-- Splitting never produces the empty list of groups. -/
lemma splitOnChar_ne_nil (c : Char) (l : List Char) : splitOnChar c l ≠ [] := by
  induction l with
  | nil => simp [splitOnChar]
  | cons x xs ih =>
    simp only [splitOnChar]
    split
    · simp
    · split
      · simp
      · simp

/-- Splitting a list that does not contain the separator gives the single
group equal to the whole list. -/
lemma splitOnChar_of_not_mem {c : Char} {l : List Char} (h : c ∉ l) :
    splitOnChar c l = [l] := by
  induction l with
  | nil => rfl
  | cons x xs ih =>
    have hx : ¬ (x = c) := fun hh => h (hh ▸ List.mem_cons_self x xs)
    have hxs : c ∉ xs := fun hm => h (List.mem_cons_of_mem x hm)
    simp only [splitOnChar, if_neg hx, ih hxs]

/-- Splitting at the first separator occurrence: the first group is
everything before it, the rest is the split of everything after it. -/
lemma splitOnChar_append (c : Char) (l1 l2 : List Char) (h : c ∉ l1) :
    splitOnChar c (l1 ++ c :: l2) = l1 :: splitOnChar c l2 := by
  induction l1 with
  | nil => simp [splitOnChar]
  | cons x xs ih =>
    have hx : ¬ (x = c) := fun hh => h (hh ▸ List.mem_cons_self x xs)
    have hxs : c ∉ xs := fun hm => h (List.mem_cons_of_mem x hm)
    simp only [List.cons_append, splitOnChar, if_neg hx, List.append_eq, ih hxs]

/-- Rejoining is a left inverse of splitting: joining the groups
with the separator restores the original list. -/
lemma joinOnChar_splitOnChar (c : Char) (l : List Char) :
    joinOnChar c (splitOnChar c l) = l := by
  induction l with
  | nil => rfl
  | cons x xs ih =>
    by_cases hx : x = c
    · subst hx
      simp only [splitOnChar, if_pos rfl]
      cases hs : splitOnChar x xs with
      | nil => exact absurd hs (splitOnChar_ne_nil x xs)
      | cons g gs =>
        rw [hs] at ih
        simp only [joinOnChar, List.nil_append]
        rw [ih]
    · simp only [splitOnChar, if_neg hx]
      cases hs : splitOnChar c xs with
      | nil => exact absurd hs (splitOnChar_ne_nil c xs)
      | cons g gs =>
        rw [hs] at ih
        cases gs with
        | nil =>
          simp only [joinOnChar] at ih ⊢
          rw [ih]
        | cons g2 gs2 =>
          simp only [joinOnChar] at ih ⊢
          rw [List.cons_append, ih]

/-- C7: the generation adapters' title/content split.  (i) The spec's
example: `"# My Title\nBody line 1\nBody line 2"` gives title `"My Title"`
and content `"Body line 1\nBody line 2"`.  (ii) Raw text without a newline:
the title is the whole text with leading heading markers stripped and then
trimmed, the content is empty.  (iii) In general, for text with a first
newline, the title is the stripped-and-trimmed part before it and the
content is the trimmed remainder after it. -/
theorem title_content_split :
    splitTitleContent "# My Title\nBody line 1\nBody line 2"
      = ("My Title", "Body line 1\nBody line 2")
    ∧ (∀ text : String, '\n' ∉ text.data →
        (splitTitleContent text).1 = String.mk (trimChars (stripHeadingChars text.data))
        ∧ (splitTitleContent text).2 = "")
    ∧ (∀ l1 l2 : List Char, '\n' ∉ l1 →
        splitTitleContent (String.mk (l1 ++ '\n' :: l2))
          = (String.mk (trimChars (stripHeadingChars l1)),
             String.mk (trimChars l2))) := by
  refine ⟨by decide, ?_, ?_⟩
  · intro text h
    unfold splitTitleContent
    rw [splitOnChar_of_not_mem h]
    exact ⟨rfl, rfl⟩
  · intro l1 l2 h
    unfold splitTitleContent
    show (match splitOnChar '\n' (l1 ++ '\n' :: l2) with
      | [] => ("", "")
      | title :: body =>
        (String.mk (trimChars (stripHeadingChars title)),
         String.mk (trimChars (joinOnChar '\n' body)))) = _
    rw [splitOnChar_append '\n' l1 l2 h]
    simp only [joinOnChar_splitOnChar]

/-- Witness for C7's conditional parts: `"# Title"` (no newline) keeps an
empty content, and a two-line text splits at its first newline. -/
theorem title_content_split_witness :
    ((splitTitleContent "# Title").1
        = String.mk (trimChars (stripHeadingChars "# Title".data))
      ∧ (splitTitleContent "# Title").2 = "")
    ∧ splitTitleContent (String.mk ("## Hi".data ++ '\n' :: " body ".data))
        = (String.mk (trimChars (stripHeadingChars "## Hi".data)),
           String.mk (trimChars " body ".data)) :=
  ⟨title_content_split.2.1 "# Title" (by decide),
   title_content_split.2.2 "## Hi".data " body ".data (by decide)⟩

/-- Witness for C10: a concrete successful run appends exactly one row, and
that row has status `"success"`. -/
theorem history_rows_only_success_witness :
    (HistoryRow.mk "s2" "w2" "K" "T" 7 "success").status = "success" :=
  history_rows_only_success.1 true "09:00" 0
    (fun s => ⟨⟨s.wordpress_config_id, "Site"⟩, none,
      ⟨[], 0, Except.ok "T", Except.ok "A", Except.ok 7⟩⟩)
    [⟨"s2", "w2", true, "daily", "09:00", ["K"], "publish"⟩]
    (HistoryRow.mk "s2" "w2" "K" "T" 7 "success")
    (by simp [processSchedules, scheduleDue, executeSchedule, selectUnusedKeyword])

/-- C8: when neither the configured default category nor the article
category resolves (slug and search lookups both empty for them), the
resolution falls back to the literal `"uncategorized"`: every id the chain
returns then comes from resolving `"uncategorized"` (no category is ever
created); if `"uncategorized"` resolves to id 1 the result is `[1]`; if it
also fails the result is `[]` and `publishArticle` still proceeds, posting
with no category filter and succeeding when the POST does. -/
theorem category_fallback_chain (lk : CategoryLookup) (dc ac : String)
    (post : List Nat → Except String Nat)
    (h1 : resolveCategory lk dc = none) (h2 : resolveCategory lk ac = none) :
    (∀ i, i ∈ getExistingCategoryIds lk dc ac →
        resolveCategory lk "uncategorized" = some i)
    ∧ (resolveCategory lk "uncategorized" = some 1 →
        getExistingCategoryIds lk dc ac = [1])
    ∧ (resolveCategory lk "uncategorized" = none →
        getExistingCategoryIds lk dc ac = []
        ∧ ∀ n, post [] = Except.ok n →
            publishArticle lk dc ac post = ⟨true, some n, none⟩) := by
  have hids : getExistingCategoryIds lk dc ac
      = (match resolveCategory lk "uncategorized" with
          | some i => [i]
          | none => []) := by
    unfold getExistingCategoryIds
    rw [h1, h2]
    split_ifs <;> simp
  refine ⟨?_, ?_, ?_⟩
  · intro i hi
    rw [hids] at hi
    cases hu : resolveCategory lk "uncategorized" with
    | none => rw [hu] at hi; simp at hi
    | some u =>
      rw [hu] at hi
      simp only [List.mem_singleton] at hi
      rw [hi]
  · intro hu
    rw [hids, hu]
  · intro hu
    have hemp : getExistingCategoryIds lk dc ac = [] := by rw [hids, hu]
    refine ⟨hemp, fun n hn => ?_⟩
    unfold publishArticle
    rw [hemp]
    simp only [hn]

/-- Witness for C8, at a lookup environment where only `"uncategorized"`
resolves (to id 1, by slug): the chain returns `[1]`; and at the
all-empty environment the chain returns `[]` and a successful POST still
publishes. -/
theorem category_fallback_chain_witness :
    getExistingCategoryIds
        ⟨fun s => if s = "uncategorized" then [⟨1, "Uncategorized"⟩] else [],
         fun _ => []⟩
        "nonexistent-slug" "tech" = [1]
    ∧ getExistingCategoryIds ⟨fun _ => [], fun _ => []⟩ "nonexistent-slug" "tech" = []
    ∧ publishArticle ⟨fun _ => [], fun _ => []⟩ "nonexistent-slug" "tech"
        (fun _ => Except.ok 42) = ⟨true, some 42, none⟩ := by
  have hA := category_fallback_chain
    ⟨fun s => if s = "uncategorized" then [⟨1, "Uncategorized"⟩] else [],
     fun _ => []⟩
    "nonexistent-slug" "tech" (fun _ => Except.ok 42)
    (by simp [resolveCategory, findExistingCategoryBySlugOrName])
    (by simp [resolveCategory, findExistingCategoryBySlugOrName])
  have hB := category_fallback_chain ⟨fun _ => [], fun _ => []⟩
    "nonexistent-slug" "tech" (fun _ => Except.ok 42)
    (by simp [resolveCategory, findExistingCategoryBySlugOrName])
    (by simp [resolveCategory, findExistingCategoryBySlugOrName])
  have hB2 := hB.2.2 (by simp [resolveCategory, findExistingCategoryBySlugOrName])
  exact ⟨hA.2.1 (by simp [resolveCategory, findExistingCategoryBySlugOrName]),
         hB2.1, hB2.2 42 rfl⟩

end AutomaticWriter
